import Mathlib

/-!
Verification of the Notesnook UI slice: the `convertNewlinesToBr` HTML
utility, the recursive context-menu widget (`Menu` in
`packages/editor/src/utils/html.ts`), and the share-extension store
(`useShareStore` in the mobile share module).

Strings are modelled as `List Char`; JavaScript objects are modelled as
structures; React `useState`/`useRef` cells become fields of an explicit
state record threaded through a step function.
-/

namespace Notesnook

/-! ### `convertNewlinesToBr` (packages/editor/src/utils/html.ts, lines 68-75)

```js
function convertNewlinesToBr(html: string) {
  const lines = html.split(/\n/gm);
  for (let i = 0; i < lines.length; ++i) {
    if (lines[i].trim().endsWith(">")) continue;
    lines[i] += "<br>";
  }
  return lines.flatten("");
}
```
-/

/-- The character class removed by JavaScript `String.prototype.trim`
(space, tab, line terminators, form/vertical feed, NBSP, BOM). -/
def jsWhitespace (c : Char) : Bool :=
  c = ' ' || c = '\t' || c = '\n' || c = '\r' || c = '\x0b' || c = '\x0c' ||
  c = Char.ofNat 160 || c = Char.ofNat 65279

/-- JavaScript `String.prototype.trim`: drop leading and trailing whitespace. -/
def trimChars (s : List Char) : List Char :=
  ((s.dropWhile jsWhitespace).reverse.dropWhile jsWhitespace).reverse

/-- JavaScript `.endsWith(">")`: the last character is a greater-than sign. -/
def endsWithGt (s : List Char) : Bool :=
  match s.getLast? with
  | some c => c = '>'
  | none => false

/-- JavaScript `html.split(/\n/gm)`: split on every newline character.
`splitLines [] = [[]]` just as `"".split` yields `[""]`. -/
def splitLines : List Char → List (List Char)
  | [] => [[]]
  | c :: cs =>
    if c = '\n' then [] :: splitLines cs
    else
      match splitLines cs with
      | [] => [[c]]
      | l :: ls => (c :: l) :: ls

/-- The appended tag `"<br>"`. -/
def brTag : List Char := ['<', 'b', 'r', '>']

/-- The loop body: `if (lines[i].trim().endsWith(">")) continue; lines[i] += "<br>"`. -/
def addBrLine (line : List Char) : List Char :=
  if endsWithGt (trimChars line) then line else line ++ brTag

/-- `convertNewlinesToBr` from the source: split on newlines, append `<br>`
to each line whose trimmed text does not end with `>`, join with `""`. -/
def convertNewlinesToBr (html : List Char) : List Char :=
  ((splitLines html).map addBrLine).flatten

theorem splitLines_ne_nil (s : List Char) : splitLines s ≠ [] := by
  induction s with
  | nil => simp [splitLines]
  | cons c cs ih =>
    simp only [splitLines]
    split
    · simp
    · cases h : splitLines cs with
      | nil => simp
      | cons l ls => simp

theorem not_newline_mem_splitLines (s : List Char) :
    ∀ l ∈ splitLines s, '\n' ∉ l := by
  induction s with
  | nil =>
    intro l hl
    simp [splitLines] at hl
    simp [hl]
  | cons c cs ih =>
    intro l hl
    simp only [splitLines] at hl
    by_cases hc : c = '\n'
    · rw [if_pos hc] at hl
      rcases List.mem_cons.mp hl with h | h
      · simp [h]
      · exact ih l h
    · rw [if_neg hc] at hl
      cases h : splitLines cs with
      | nil => exact absurd h (splitLines_ne_nil cs)
      | cons t ts =>
        rw [h] at hl
        rcases List.mem_cons.mp hl with h1 | h1
        · subst h1
          intro hmem
          rcases List.mem_cons.mp hmem with h2 | h2
          · exact hc h2.symm
          · exact ih t (h ▸ List.mem_cons_self t ts) h2
        · exact ih l (h ▸ List.mem_cons_of_mem t h1)

/-- C9. `convertNewlinesToBr` splits the input on newline characters, appends
`<br>` to exactly those lines whose trimmed text does not end with `>`, and
joins the lines with the empty separator; consequently its output never
contains a newline character. -/
theorem convertNewlinesToBr_spec (s : List Char) :
    convertNewlinesToBr s = ((splitLines s).map addBrLine).flatten ∧
      '\n' ∉ convertNewlinesToBr s := by
  refine ⟨rfl, ?_⟩
  intro hmem
  rw [convertNewlinesToBr, List.mem_flatten] at hmem
  obtain ⟨l, hl, hnl⟩ := hmem
  rw [List.mem_map] at hl
  obtain ⟨l0, hl0, rfl⟩ := hl
  have h0 : '\n' ∉ l0 := not_newline_mem_splitLines s l0 hl0
  rw [addBrLine] at hnl
  split at hnl
  · exact h0 hnl
  · rcases List.mem_append.mp hnl with h | h
    · exact h0 h
    · simp [brTag] at h

/-! ### Menu data model (packages/editor/src/utils/html.ts and `./types`)

A `MenuItem` is a tagged variant: a separator, a button (with `isDisabled`,
`isHidden`, an optional click handler and an optional nested menu), or a
popup. A click handler is opaque except for whether, when invoked, it
completes normally or throws. -/

/-- The observable behavior of a button item's `onClick` handler. -/
inductive ClickResult : Type where
  | normal : ClickResult
  | throws : ClickResult
deriving DecidableEq

/-- A menu item: `separator` | `button` | `popup`. A button carries its key,
`isDisabled` flag, `isHidden` flag, optional `onClick` handler, and optional
nested `menu` (the submenu's ordered item list). -/
inductive MenuItem : Type where
  | separator : String → MenuItem
  | button : String → Bool → Bool → Option ClickResult → Option (List MenuItem) → MenuItem
  | popup : String → MenuItem

/-- `item.key`. -/
def MenuItem.keyOf : MenuItem → String
  | .separator k => k
  | .button k _ _ _ _ => k
  | .popup k => k

/-- `item.isHidden` (truthiness: only buttons carry the flag, elsewhere
`undefined` is falsy). -/
def MenuItem.isHiddenItem : MenuItem → Bool
  | .button _ _ hidden _ _ => hidden
  | _ => false

/-- `item.isDisabled` (only buttons carry the flag). -/
def MenuItem.isDisabledItem : MenuItem → Bool
  | .button _ disabled _ _ _ => disabled
  | _ => false

/-- `item.type === "separator"`. -/
def MenuItem.isSeparatorItem : MenuItem → Bool
  | .separator _ => true
  | _ => false

/-- `item.menu` (the nested menu, if any). -/
def MenuItem.itemMenu : MenuItem → Option (List MenuItem)
  | .button _ _ _ _ m => m
  | _ => none

/-- `item.onClick`. -/
def MenuItem.itemOnClick : MenuItem → Option ClickResult
  | .button _ _ _ c _ => c
  | _ => none

/-! ### `Menu.onAction` (html.ts lines 113-123)

```js
const onAction = useCallback((e?: Event, item?: MenuButtonItem) => {
  e?.stopPropagation();
  if (item?.onClick) { item.onClick(); }
  if (onClose) onClose();
}, [onClose]);
```

The outcome records how many times the level's `onClose` prop was invoked
and whether an exception propagated out of `onAction`. JavaScript has no
`try`/`finally` here: a throw in `item.onClick()` aborts the rest of the
body, so `onClose()` is only reached when the handler returns normally. -/

/-- Outcome of one `onAction` run. -/
structure ActionOutcome : Type where
  closeCalls : Nat
  thrown : Bool
deriving DecidableEq

/-- Shallow embedding of `Menu.onAction`, sequential like the source:
run the handler if present (a throw aborts immediately), then call
`onClose` once. -/
def onAction (onClick : Option ClickResult) : ActionOutcome :=
  match onClick with
  | some ClickResult.throws => { closeCalls := 0, thrown := true }
  | some ClickResult.normal => { closeCalls := 1, thrown := false }
  | none => { closeCalls := 1, thrown := false }

/-- C1 counterexample. For an item whose `onClick` throws, `onAction` does
NOT invoke `onClose` (the throw aborts the body before the close), while the
exception does propagate — refuting the claim that `onClose` is invoked
regardless of whether the handler throws. -/
theorem onAction_throw_skips_close :
    (onAction (some ClickResult.throws)).thrown = true ∧
      ¬(onAction (some ClickResult.throws)).closeCalls = 1 := by
  decide

/-- C1 (amended). A click handler that throws propagates to the embedding
application (never swallowed), but `onClose` is invoked exactly when the
handler completes normally (or is absent): on a throw the menu is NOT closed
by the action path; otherwise it is closed exactly once. -/
theorem onAction_close_iff_no_throw (c : Option ClickResult) :
    ((onAction c).thrown = true ↔ c = some ClickResult.throws) ∧
      (onAction c).closeCalls = (if c = some ClickResult.throws then 0 else 1) := by
  rcases c with _ | c
  · simp [onAction]
  · cases c <;> simp [onAction]

/-! ### Close bubbling through the recursive render (html.ts lines 213-223)

```js
{focusedItem?.type === "button" && focusedItem?.menu && isSubmenuOpen && (
  <Flex ref={subMenuRef} ...>
    <Menu items={focusedItem.menu.items} onClose={onClose} />
  </Flex>
)}
```

A nested `Menu` receives the parent's `onClose` prop unchanged, so at every
recursion depth the level's `onClose` is the root owner's callback. -/

/-- The close callback a submenu `Menu` receives from its parent
(line 221: `onClose={onClose}`). -/
def submenuOnClose {α : Type} (onClose : α) : α := onClose

/-- The close callback held by the menu level at nesting depth `n`, obtained
by passing the root owner's callback down through `n` recursive renders. -/
def onCloseAtDepth {α : Type} (root : α) : Nat → α
  | 0 => root
  | n + 1 => submenuOnClose (onCloseAtDepth root n)

/-- `MenuButton`'s `onClick` prop (html.ts lines 174-179): an item with a
nested menu opens its submenu; a leaf item fires `onAction`. -/
inductive ClickOutcome : Type where
  | openSubmenu : Nat → ClickOutcome
  | action : ActionOutcome → ClickOutcome
deriving DecidableEq

/-- Shallow embedding of the `MenuButton` click dispatch at index `index`:
```js
onClick={(e) => {
  if (item.menu) { setFocusIndex(index); setIsSubmenuOpen(true); }
  else onAction(e, item);
}}
``` -/
def menuButtonClick (onClick : Option ClickResult)
    (menu : Option (List MenuItem)) (index : Nat) : ClickOutcome :=
  match menu with
  | some _ => ClickOutcome.openSubmenu index
  | none => ClickOutcome.action (onAction onClick)

/-- C2 counterexample. The claim quantifies over every leaf button click,
but a leaf whose `onClick` handler throws yields zero invocations of the
level's `onClose` (the throw aborts `onAction` before the close), not
exactly one — refuting the unconditional claim at a concrete leaf click. -/
theorem leaf_click_throw_skips_root_close :
    menuButtonClick (some ClickResult.throws) none 0 =
        ClickOutcome.action { closeCalls := 0, thrown := true } ∧
      ¬menuButtonClick (some ClickResult.throws) none 0 =
        ClickOutcome.action { closeCalls := 1, thrown := false } := by
  decide

/-- C2 (amended). Clicking a leaf button (no nested menu) whose handler
completes normally fires `onAction`, which invokes the level's `onClose`
exactly once; and at every nesting depth the level's `onClose` IS the root
owner's callback (the recursive render passes it down unchanged), so the
single close notification reaches the root and closes the whole tree. (Per
the counterexample, a throwing handler instead closes zero times.) -/
theorem leaf_click_closes_root_once {α : Type} (root : α) (n : Nat)
    (onClick : Option ClickResult) (index : Nat)
    (hnothrow : onClick ≠ some ClickResult.throws) :
    onCloseAtDepth root n = root ∧
      menuButtonClick onClick none index =
        ClickOutcome.action { closeCalls := 1, thrown := false } := by
  constructor
  · induction n with
    | zero => rfl
    | succ m ih => simpa [onCloseAtDepth, submenuOnClose] using ih
  · rcases onClick with _ | c
    · rfl
    · cases c
      · rfl
      · exact absurd rfl hnothrow

/-- C2 amended witness: at depth 3 with a normally-completing handler, the
click closes through the root callback exactly once. -/
theorem leaf_click_closes_root_once_witness :
    onCloseAtDepth (0 : Nat) 3 = 0 ∧
      menuButtonClick (some ClickResult.normal) none 5 =
        ClickOutcome.action { closeCalls := 1, thrown := false } :=
  leaf_click_closes_root_once 0 3 (some ClickResult.normal) 5 (by decide)

/-! ### Hover timer and focus state (html.ts lines 110-204)

One `Menu` level owns: `focusIndex` / `isSubmenuOpen` (state exposed by
`useFocus`) and `hoverTimeout` (a `useRef` timer handle). The pointer
handlers of a rendered `MenuButton` are:

```js
onMouseEnter={() => {
  if (item.isDisabled) { setFocusIndex(-1); return; }
  if (!isSubmenuOpen) setFocusIndex(index);
  clearTimeout(hoverTimeout.current);
  hoverTimeout.current = setTimeout(() => {
    if (isSubmenuOpen) { setFocusIndex(index); }
    else { setIsSubmenuOpen(true); }
    if (!item.menu) { setIsSubmenuOpen(false); }
  }, 200);
}}
onMouseLeave={() => { clearTimeout(hoverTimeout.current); }}
```

The `setTimeout` closure captures `isSubmenuOpen`, `index` and `item` as
they are at the moment the handler runs; we record those in the pending
timer. A `timerFire` event models the 200ms debounce delay elapsing with
the timer still pending; `clearTimeout` removes the pending timer so a
cleared timer can never fire. -/

/-- The closure captured by `setTimeout` in `onMouseEnter`. -/
structure HoverTimer : Type where
  index : Nat
  capturedIsSubmenuOpen : Bool
  itemHasMenu : Bool
deriving DecidableEq

/-- The mutable state of one `Menu` level: `focusIndex` (`-1` = none),
`isSubmenuOpen`, and the pending hover timer, if any. -/
structure MenuLevelState : Type where
  focusIndex : Int
  isSubmenuOpen : Bool
  pendingTimer : Option HoverTimer
deriving DecidableEq

/-- The fresh state of a newly mounted menu level. -/
def initialMenuLevelState : MenuLevelState :=
  { focusIndex := -1, isSubmenuOpen := false, pendingTimer := none }

/-- Pointer/timer events delivered to one menu level. -/
inductive MenuEvent : Type where
  | mouseEnter : Nat → MenuEvent
  | mouseLeave : MenuEvent
  | timerFire : MenuEvent
deriving DecidableEq

/-- One step of the menu level's hover state machine, a direct transcription
of the handlers above. Hidden items are not rendered (line 164) so they
never receive pointer events; non-button items install no pointer handlers. -/
def menuStep (items : List MenuItem) (s : MenuLevelState) : MenuEvent → MenuLevelState
  | MenuEvent.mouseEnter i =>
    match items[i]? with
    | some (MenuItem.button _ isDisabled isHidden _ menu) =>
      if isHidden then s
      else if isDisabled then { s with focusIndex := -1 }
      else
        let s1 := if !s.isSubmenuOpen then { s with focusIndex := (i : Int) } else s
        { s1 with
          pendingTimer := some
            { index := i
              capturedIsSubmenuOpen := s.isSubmenuOpen
              itemHasMenu := menu.isSome } }
    | _ => s
  | MenuEvent.mouseLeave => { s with pendingTimer := none }
  | MenuEvent.timerFire =>
    match s.pendingTimer with
    | none => s
    | some t =>
      let s1 := { s with pendingTimer := none }
      let s2 :=
        if t.capturedIsSubmenuOpen then { s1 with focusIndex := (t.index : Int) }
        else { s1 with isSubmenuOpen := true }
      if !t.itemHasMenu then { s2 with isSubmenuOpen := false } else s2

/-- `items[focusIndex]` with JavaScript indexing: a negative index reads as
`undefined`. -/
def focusedItemAt (items : List MenuItem) (focusIndex : Int) : Option MenuItem :=
  if focusIndex < 0 then none else items[focusIndex.toNat]?

/-- The submenu render condition (html.ts lines 213-223): a single submenu
is rendered exactly when the focused item is a button with a nested menu and
`isSubmenuOpen` holds; it is anchored to the focused item's key and renders
that item's nested items. The `Option` result embeds that one menu level
renders at most one submenu. -/
def renderSubmenu (items : List MenuItem) (s : MenuLevelState) :
    Option (String × List MenuItem) :=
  match focusedItemAt items s.focusIndex with
  | some (MenuItem.button key _ _ _ (some m)) =>
    if s.isSubmenuOpen then some (key, m) else none
  | _ => none

theorem menuStep_leave_clears (items : List MenuItem) (s : MenuLevelState) :
    menuStep items s MenuEvent.mouseLeave = { s with pendingTimer := none } := rfl

theorem menuStep_enter_preserves_submenu (items : List MenuItem)
    (s : MenuLevelState) (i : Nat) :
    (menuStep items s (MenuEvent.mouseEnter i)).isSubmenuOpen = s.isSubmenuOpen := by
  cases h : items[i]? with
  | none => simp [menuStep, h]
  | some item =>
    cases item with
    | separator k => simp [menuStep, h]
    | popup k => simp [menuStep, h]
    | button k d hid c m =>
      simp only [menuStep, h]
      by_cases hhid : hid = true
      · simp [hhid]
      · simp only [Bool.not_eq_true] at hhid
        by_cases hd : d = true <;> by_cases hs : s.isSubmenuOpen <;>
          simp [hhid, hd, hs]

theorem menuStep_noTimer_fixed (items : List MenuItem) (s : MenuLevelState)
    (h : s.pendingTimer = none) :
    menuStep items s MenuEvent.mouseLeave = s ∧
      menuStep items s MenuEvent.timerFire = s := by
  cases s with
  | mk fi op pt =>
    simp only at h
    subst h
    constructor <;> rfl

/-- C3. If the pointer enters a button item and leaves again before the
debounce delay fires, the pending hover timer is cancelled: afterwards no
timer is pending, `isSubmenuOpen` is exactly what it was before the hover,
and any further stream of leave/expiry events (no new hover) keeps the
timer empty and the submenu state unchanged — that hover can never open a
submenu. -/
theorem hover_leave_never_opens (items : List MenuItem) (s : MenuLevelState)
    (i : Nat) (evs : List MenuEvent)
    (hevs : ∀ e ∈ evs, e = MenuEvent.mouseLeave ∨ e = MenuEvent.timerFire) :
    (menuStep items (menuStep items s (MenuEvent.mouseEnter i))
        MenuEvent.mouseLeave).pendingTimer = none ∧
      (evs.foldl (menuStep items)
          (menuStep items (menuStep items s (MenuEvent.mouseEnter i))
            MenuEvent.mouseLeave)).isSubmenuOpen = s.isSubmenuOpen ∧
      (evs.foldl (menuStep items)
          (menuStep items (menuStep items s (MenuEvent.mouseEnter i))
            MenuEvent.mouseLeave)).pendingTimer = none := by
  set s2 := menuStep items (menuStep items s (MenuEvent.mouseEnter i))
    MenuEvent.mouseLeave with hs2
  have htimer : s2.pendingTimer = none := by rw [hs2, menuStep_leave_clears]
  have hopen : s2.isSubmenuOpen = s.isSubmenuOpen := by
    rw [hs2, menuStep_leave_clears]
    exact menuStep_enter_preserves_submenu items s i
  refine ⟨htimer, ?_⟩
  have hfix : ∀ e ∈ evs, menuStep items s2 e = s2 := by
    intro e he
    rcases hevs e he with rfl | rfl
    · exact (menuStep_noTimer_fixed items s2 htimer).1
    · exact (menuStep_noTimer_fixed items s2 htimer).2
  have hfold : evs.foldl (menuStep items) s2 = s2 := by
    induction evs with
    | nil => rfl
    | cons e es ih =>
      rw [List.foldl_cons, hfix e (List.mem_cons_self e es)]
      exact ih (fun x hx => hevs x (List.mem_cons_of_mem e hx))
        (fun x hx => hfix x (List.mem_cons_of_mem e hx))
  rw [hfold]
  exact ⟨hopen, htimer⟩

/-- C3 witness: hovering item 0 of a one-item menu (an enabled button with a
nested submenu) and leaving, then letting the old deadline pass, leaves the
submenu closed and no timer pending. -/
theorem hover_leave_never_opens_witness :
    (menuStep [MenuItem.button "a" false false none (some [])]
        (menuStep [MenuItem.button "a" false false none (some [])]
          initialMenuLevelState (MenuEvent.mouseEnter 0))
        MenuEvent.mouseLeave).pendingTimer = none ∧
      (([MenuEvent.timerFire]).foldl
          (menuStep [MenuItem.button "a" false false none (some [])])
          (menuStep [MenuItem.button "a" false false none (some [])]
            (menuStep [MenuItem.button "a" false false none (some [])]
              initialMenuLevelState (MenuEvent.mouseEnter 0))
            MenuEvent.mouseLeave)).isSubmenuOpen =
        initialMenuLevelState.isSubmenuOpen ∧
      (([MenuEvent.timerFire]).foldl
          (menuStep [MenuItem.button "a" false false none (some [])])
          (menuStep [MenuItem.button "a" false false none (some [])]
            (menuStep [MenuItem.button "a" false false none (some [])]
              initialMenuLevelState (MenuEvent.mouseEnter 0))
            MenuEvent.mouseLeave)).pendingTimer = none :=
  hover_leave_never_opens [MenuItem.button "a" false false none (some [])]
    initialMenuLevelState 0 [MenuEvent.timerFire] (by decide)

/-- C4. Hovering an enabled, visible button item that has a nested menu for
at least the debounce delay (the timer set on enter fires uncancelled)
leaves the level with focus on that item and the submenu open, and the
render condition then shows exactly one submenu, anchored to the hovered
item's key and containing its nested items — regardless of whether a
submenu was already open for another item (the single `Option` result of
`renderSubmenu` is the per-level at-most-one-submenu guarantee). -/
theorem hover_expiry_opens_submenu (items : List MenuItem) (s : MenuLevelState)
    (i : Nat) (key : String) (onClick : Option ClickResult) (m : List MenuItem)
    (hitem : items[i]? = some (MenuItem.button key false false onClick (some m))) :
    (menuStep items (menuStep items s (MenuEvent.mouseEnter i))
        MenuEvent.timerFire).focusIndex = (i : Int) ∧
      (menuStep items (menuStep items s (MenuEvent.mouseEnter i))
          MenuEvent.timerFire).isSubmenuOpen = true ∧
      renderSubmenu items
          (menuStep items (menuStep items s (MenuEvent.mouseEnter i))
            MenuEvent.timerFire) = some (key, m) := by
  have hfi : (0 : Int) ≤ (i : Int) := Int.ofNat_nonneg i
  by_cases hs : s.isSubmenuOpen
  · have h1 : menuStep items s (MenuEvent.mouseEnter i) =
        { s with pendingTimer := some ⟨i, true, true⟩ } := by
      simp [menuStep, hitem, hs]
    have h2 : menuStep items (menuStep items s (MenuEvent.mouseEnter i))
        MenuEvent.timerFire =
        { s with focusIndex := (i : Int), pendingTimer := none,
                 isSubmenuOpen := s.isSubmenuOpen } := by
      rw [h1]
      simp [menuStep]
    rw [h2]
    have hfa : focusedItemAt items (i : Int) =
        some (MenuItem.button key false false onClick (some m)) := by
      rw [focusedItemAt, if_neg (by omega)]
      simpa using hitem
    refine ⟨rfl, by simpa using hs, ?_⟩
    simp [renderSubmenu, hfa, hs]
  · have h1 : menuStep items s (MenuEvent.mouseEnter i) =
        { s with focusIndex := (i : Int),
                 pendingTimer := some ⟨i, false, true⟩ } := by
      simp [menuStep, hitem, hs]
    have h2 : menuStep items (menuStep items s (MenuEvent.mouseEnter i))
        MenuEvent.timerFire =
        { s with focusIndex := (i : Int), pendingTimer := none,
                 isSubmenuOpen := true } := by
      rw [h1]
      simp [menuStep]
    rw [h2]
    have hfa : focusedItemAt items (i : Int) =
        some (MenuItem.button key false false onClick (some m)) := by
      rw [focusedItemAt, if_neg (by omega)]
      simpa using hitem
    exact ⟨rfl, rfl, by simp [renderSubmenu, hfa]⟩

/-- C4 witness: a two-item menu where hovering item 1 (an enabled button
with a nested menu) through the full delay opens exactly the submenu
anchored at its key. -/
theorem hover_expiry_opens_submenu_witness :
    (menuStep
        [MenuItem.separator "s",
          MenuItem.button "b" false false none (some [MenuItem.popup "p"])]
        (menuStep
          [MenuItem.separator "s",
            MenuItem.button "b" false false none (some [MenuItem.popup "p"])]
          initialMenuLevelState (MenuEvent.mouseEnter 1))
        MenuEvent.timerFire).focusIndex = (1 : Int) ∧
      (menuStep
          [MenuItem.separator "s",
            MenuItem.button "b" false false none (some [MenuItem.popup "p"])]
          (menuStep
            [MenuItem.separator "s",
              MenuItem.button "b" false false none (some [MenuItem.popup "p"])]
            initialMenuLevelState (MenuEvent.mouseEnter 1))
          MenuEvent.timerFire).isSubmenuOpen = true ∧
      renderSubmenu
          [MenuItem.separator "s",
            MenuItem.button "b" false false none (some [MenuItem.popup "p"])]
          (menuStep
            [MenuItem.separator "s",
              MenuItem.button "b" false false none (some [MenuItem.popup "p"])]
            (menuStep
              [MenuItem.separator "s",
                MenuItem.button "b" false false none (some [MenuItem.popup "p"])]
              initialMenuLevelState (MenuEvent.mouseEnter 1))
            MenuEvent.timerFire) = some ("b", [MenuItem.popup "p"]) :=
  hover_expiry_opens_submenu
    [MenuItem.separator "s",
      MenuItem.button "b" false false none (some [MenuItem.popup "p"])]
    initialMenuLevelState 1 "b" none [MenuItem.popup "p"] rfl

/-- C8. When the pointer enters a disabled (visible) button item, the level
sets the focus index to `-1` (none) and returns at once: the pending-timer
slot and the submenu-open flag are exactly what they were, so hovering a
disabled item never focuses it and never starts the hover timer that could
open a submenu. -/
theorem disabled_hover_sets_focus_none (items : List MenuItem)
    (s : MenuLevelState) (i : Nat) (key : String) (onClick : Option ClickResult)
    (menu : Option (List MenuItem))
    (hitem : items[i]? = some (MenuItem.button key true false onClick menu)) :
    menuStep items s (MenuEvent.mouseEnter i) = { s with focusIndex := -1 } := by
  simp [menuStep, hitem]

/-- C8 witness: entering the disabled button of a two-item menu from the
fresh state only moves the focus index to `-1`. -/
theorem disabled_hover_sets_focus_none_witness :
    menuStep
        [MenuItem.button "a" false false none none,
          MenuItem.button "b" true false none (some [])]
        { focusIndex := 0, isSubmenuOpen := false, pendingTimer := none }
        (MenuEvent.mouseEnter 1) =
      { focusIndex := -1, isSubmenuOpen := false, pendingTimer := none } :=
  disabled_hover_sets_focus_none
    [MenuItem.button "a" false false none none,
      MenuItem.button "b" true false none (some [])]
    { focusIndex := 0, isSubmenuOpen := false, pendingTimer := none }
    1 "b" none (some []) rfl

/-- C9 witness: the spec evaluated on the concrete input `"a\nb"`. -/
theorem convertNewlinesToBr_spec_witness :
    convertNewlinesToBr ['a', '\n', 'b'] =
        ((splitLines ['a', '\n', 'b']).map addBrLine).flatten ∧
      '\n' ∉ convertNewlinesToBr ['a', '\n', 'b'] :=
  convertNewlinesToBr_spec ['a', '\n', 'b']

/-! ### Submenu positioning effect (html.ts lines 136-158)

```js
const subMenuRef = useRef<HTMLDivElement>(null);
useEffect(() => {
  const item = items[focusIndex];
  if (!item || !subMenuRef.current) return;
  const menuItemElement = document.getElementById(`${item.key}-menu-item`);
  if (!menuItemElement) return;
  if (!isSubmenuOpen) { subMenuRef.current.style.visibility = "hidden"; return; }
  const { top, left } = getPosition(subMenuRef.current, {
    target: menuItemElement, location: "right" });
  subMenuRef.current.style.visibility = "visible";
  subMenuRef.current.style.top = `${top}px`;
  subMenuRef.current.style.left = `${left}px`;
}, [isSubmenuOpen, focusIndex, items]);
```

The submenu `Flex` mounts with inline `style={{ visibility: "hidden" }}`
(line 216) and no top/left. `getPosition` is the external PositionResolver;
`document.getElementById` is the external anchor lookup. One effect run is a
total function of the DOM lookups and the level state, acting on the visual
state of the submenu element. -/

/-- The visual state of the submenu overlay element: its CSS visibility and
its resolved top/left coordinates, if any were ever assigned. -/
structure SubmenuVisual : Type where
  visible : Bool
  pos : Option (Int × Int)
deriving DecidableEq

/-- The submenu `Flex` as first rendered: `visibility: "hidden"`, no
coordinates. -/
def initialSubmenuVisual : SubmenuVisual := { visible := false, pos := none }

/-- The inputs one run of the positioning effect reads: the current item
list and focus/submenu state, whether the submenu element is mounted
(`subMenuRef.current`), the anchor lookup (`document.getElementById`,
returning an abstract anchor handle), and the external `getPosition`
resolver producing top/left for an anchor. -/
structure PositionEffectInput (Anchor : Type) : Type where
  items : List MenuItem
  focusIndex : Int
  isSubmenuOpen : Bool
  refMounted : Bool
  lookup : String → Option Anchor
  resolver : Anchor → Int × Int

/-- The dom id of the anchor element: `` `${item.key}-menu-item` ``. -/
def anchorId (item : MenuItem) : String := item.keyOf ++ "-menu-item"

/-- One run of the `useEffect` body, transcribed branch for branch. -/
def positionEffect {Anchor : Type} (inp : PositionEffectInput Anchor)
    (v : SubmenuVisual) : SubmenuVisual :=
  match focusedItemAt inp.items inp.focusIndex with
  | none => v
  | some item =>
    if !inp.refMounted then v
    else
      match inp.lookup (anchorId item) with
      | none => v
      | some anchor =>
        if !inp.isSubmenuOpen then { v with visible := false }
        else
          { visible := true, pos := some (inp.resolver anchor) }

theorem positionEffect_visible_pos {Anchor : Type}
    (inp : PositionEffectInput Anchor) (v : SubmenuVisual)
    (hv : v.visible = true → v.pos.isSome = true) :
    (positionEffect inp v).visible = true →
      (positionEffect inp v).pos.isSome = true := by
  rw [positionEffect]
  cases hfa : focusedItemAt inp.items inp.focusIndex with
  | none => exact hv
  | some item =>
    by_cases hm : inp.refMounted
    · simp only [hm, Bool.not_true, Bool.false_eq_true, if_false]
      cases hlk : inp.lookup (anchorId item) with
      | none => exact hv
      | some anchor =>
        by_cases ho : inp.isSubmenuOpen
        · simp [ho]
        · simp only [ho, Bool.not_false, if_true]
          intro h
          exact absurd h (by simp)
    · simp only [Bool.not_eq_true'] at hm
      simp only [hm, Bool.not_false, if_true]
      exact hv

/-- C7. The submenu overlay is never shown with an unresolved position:
it starts hidden with no coordinates; after any sequence of effect runs,
if it is visible then top/left coordinates have been assigned; a step can
only turn it visible by storing the resolver's output for a found anchor
while the submenu is open; and when the anchor lookup misses (or no item is
focused) the run leaves the visual state untouched — hidden stays hidden and
nothing is thrown (the effect is a total function). -/
theorem submenu_position_safety {Anchor : Type} :
    (initialSubmenuVisual.visible = false ∧ initialSubmenuVisual.pos = none) ∧
      (∀ runs : List (PositionEffectInput Anchor),
        (runs.foldl (fun v inp => positionEffect inp v)
            initialSubmenuVisual).visible = true →
          (runs.foldl (fun v inp => positionEffect inp v)
              initialSubmenuVisual).pos.isSome = true) ∧
      (∀ (inp : PositionEffectInput Anchor) (v : SubmenuVisual),
        (positionEffect inp v).visible = true → v.visible = true ∨
          ∃ item anchor,
            focusedItemAt inp.items inp.focusIndex = some item ∧
              inp.lookup (anchorId item) = some anchor ∧
              inp.isSubmenuOpen = true ∧ inp.refMounted = true ∧
              (positionEffect inp v).pos = some (inp.resolver anchor)) ∧
      (∀ (inp : PositionEffectInput Anchor) (v : SubmenuVisual) (item : MenuItem),
        focusedItemAt inp.items inp.focusIndex = some item →
          inp.lookup (anchorId item) = none → positionEffect inp v = v) := by
  refine ⟨⟨rfl, rfl⟩, ?_, ?_, ?_⟩
  · intro runs
    have : ∀ (v : SubmenuVisual), (v.visible = true → v.pos.isSome = true) →
        ((runs.foldl (fun v inp => positionEffect inp v) v).visible = true →
          (runs.foldl (fun v inp => positionEffect inp v) v).pos.isSome = true) := by
      induction runs with
      | nil => intro v hv; exact hv
      | cons r rs ih =>
        intro v hv
        rw [List.foldl_cons]
        exact ih (positionEffect r v) (positionEffect_visible_pos r v hv)
    exact this initialSubmenuVisual (by intro h; exact absurd h (by simp [initialSubmenuVisual]))
  · intro inp v h
    rw [positionEffect] at h
    cases hfa : focusedItemAt inp.items inp.focusIndex with
    | none =>
      rw [hfa] at h
      exact Or.inl h
    | some item =>
      rw [hfa] at h
      cases hm : inp.refMounted with
      | false =>
        rw [hm] at h
        simp only [Bool.not_false, if_true] at h
        exact Or.inl h
      | true =>
        rw [hm] at h
        simp only [Bool.not_true, Bool.false_eq_true, if_false] at h
        cases hlk : inp.lookup (anchorId item) with
        | none =>
          rw [hlk] at h
          exact Or.inl h
        | some anchor =>
          rw [hlk] at h
          cases ho : inp.isSubmenuOpen with
          | false =>
            rw [ho] at h
            simp at h
          | true =>
            refine Or.inr ⟨item, anchor, rfl, hlk, rfl, rfl, ?_⟩
            simp [positionEffect, hfa, hm, hlk, ho]
  · intro inp v item hfa hlk
    rw [positionEffect, hfa]
    by_cases hm : inp.refMounted
    · simp [hm, hlk]
    · simp only [Bool.not_eq_true'] at hm
      simp [hm]

/-- C7 witness: with no anchor to be found, a run on the fresh state leaves
the submenu hidden, exercising the missing-anchor clause of the theorem. -/
theorem submenu_position_safety_witness :
    @positionEffect Unit
        { items := [MenuItem.button "b" false false none (some [])],
          focusIndex := 0, isSubmenuOpen := true, refMounted := true,
          lookup := fun _ => none, resolver := fun _ => (0, 0) }
        initialSubmenuVisual = initialSubmenuVisual :=
  (@submenu_position_safety Unit).2.2.2
    { items := [MenuItem.button "b" false false none (some [])],
      focusIndex := 0, isSubmenuOpen := true, refMounted := true,
      lookup := fun _ => none, resolver := fun _ => (0, 0) }
    initialSubmenuVisual (MenuItem.button "b" false false none (some []))
    rfl rfl

/-! ### Keyboard focus navigation

Modelled from the spec: `Menu` imports `useFocus` from `./use-focus`, whose
implementation is not among the provided sources. Per the spec (§4.1, §8)
the focus controller's downward navigation "moves focus to next …
non-separator, non-hidden item; wraps at ends". We embed that contract:
a focus target is a visible (non-hidden), non-separator item, and `next`
scans forward from the current index, wrapping past the end, to the first
focus target. -/

/-- Whether index `i` is a valid focus target: it holds an item that is
neither a separator nor hidden. -/
def isFocusTarget (items : List MenuItem) (i : Nat) : Bool :=
  match items[i]? with
  | some item => !(item.isSeparatorItem || item.isHiddenItem)
  | none => false

/-- Modelled from the spec: the wrapping forward scan of downward
navigation, fuelled by the list length (enough to visit every index once);
`none` means the menu has no focus target at all. -/
def nextFocusAux (items : List MenuItem) : Nat → Nat → Option Nat
  | 0, _ => none
  | fuel + 1, j =>
    if isFocusTarget items j then some j
    else nextFocusAux items fuel ((j + 1) % items.length)

/-- Modelled from the spec: "next" navigation from index `i` — the first
focus target strictly after `i` in cyclic order. -/
def nextFocus (items : List MenuItem) (i : Nat) : Option Nat :=
  nextFocusAux items items.length ((i + 1) % items.length)

/-- One keyboard "down" step acting on the focus index (staying put if the
menu has no focus target). -/
def stepNext (items : List MenuItem) (i : Nat) : Nat :=
  (nextFocus items i).getD i

/-- The indices of the focus targets, in ascending order. -/
def focusTargets (items : List MenuItem) : List Nat :=
  (List.range items.length).filter (fun j => isFocusTarget items j)

/-- `N`: the number of visible non-separator items. -/
def countFocusTargets (items : List MenuItem) : Nat :=
  (focusTargets items).length

/-- The rendered entries of one menu level (html.ts lines 163-164):
`if (item.isHidden) return null` filters hidden items out of the render. -/
def renderList (items : List MenuItem) : List MenuItem :=
  items.filter (fun item => !item.isHiddenItem)

theorem isFocusTarget_lt (items : List MenuItem) (i : Nat)
    (h : isFocusTarget items i = true) : i < items.length := by
  rw [isFocusTarget] at h
  cases hg : items[i]? with
  | none => rw [hg] at h; exact absurd h (by simp)
  | some item => exact (List.getElem?_eq_some.mp hg).1

theorem mem_focusTargets (items : List MenuItem) (j : Nat) :
    j ∈ focusTargets items ↔ isFocusTarget items j = true := by
  rw [focusTargets, List.mem_filter, List.mem_range]
  constructor
  · exact fun h => h.2
  · exact fun h => ⟨isFocusTarget_lt items j h, h⟩

theorem focusTargets_pairwise (items : List MenuItem) :
    (focusTargets items).Pairwise (· < ·) :=
  (List.pairwise_lt_range items.length).sublist
    (List.filter_sublist (List.range items.length))

theorem focusTargets_get_lt (items : List MenuItem)
    (a b : Fin (focusTargets items).length) (hab : a < b) :
    (focusTargets items).get a < (focusTargets items).get b :=
  (List.pairwise_iff_get.mp (focusTargets_pairwise items)) a b hab

theorem focusTargets_get_target (items : List MenuItem)
    (a : Fin (focusTargets items).length) :
    isFocusTarget items ((focusTargets items).get a) = true :=
  (mem_focusTargets items _).mp (List.get_mem _ a.1 a.2)

/-- If index 0 is a focus target, it is the first entry of `focusTargets`. -/
theorem focusTargets_head (items : List MenuItem)
    (h0 : isFocusTarget items 0 = true) (hlen : 0 < (focusTargets items).length) :
    (focusTargets items).get ⟨0, hlen⟩ = 0 := by
  obtain ⟨m, hm⟩ := List.mem_iff_get.mp ((mem_focusTargets items 0).mpr h0)
  rcases Nat.eq_zero_or_pos m.1 with hz | hpos
  · have : m = ⟨0, hlen⟩ := Fin.ext hz
    rw [← this, hm]
  · exfalso
    have hlt := focusTargets_get_lt items ⟨0, hlen⟩ m (by exact hpos)
    rw [hm] at hlt
    omega

theorem focusTargets_length_pos (items : List MenuItem)
    (h0 : isFocusTarget items 0 = true) : 0 < (focusTargets items).length := by
  have hmem := (mem_focusTargets items 0).mpr h0
  cases hl : focusTargets items with
  | nil => rw [hl] at hmem; exact absurd hmem (List.not_mem_nil 0)
  | cons a l => simp [hl]

/-- Between two consecutive focus targets there is no focus target. -/
theorem no_target_between (items : List MenuItem) (k : Nat)
    (hk : k + 1 < (focusTargets items).length) (x : Nat)
    (h1 : (focusTargets items).get ⟨k, by omega⟩ < x)
    (h2 : x < (focusTargets items).get ⟨k + 1, hk⟩) :
    isFocusTarget items x = false := by
  by_contra hx
  rw [Bool.not_eq_false] at hx
  obtain ⟨m, hm⟩ := List.mem_iff_get.mp ((mem_focusTargets items x).mpr hx)
  rcases Nat.lt_trichotomy m.1 (k + 1) with hlt | heq | hgt
  · rcases Nat.lt_or_ge m.1 k with hmk | hmk
    · have := focusTargets_get_lt items m ⟨k, by omega⟩ hmk
      rw [hm] at this
      omega
    · have hmk' : m.1 = k := by omega
      have heqm : m = (⟨k, by omega⟩ : Fin (focusTargets items).length) := Fin.ext hmk'
      rw [heqm] at hm
      rw [hm] at h1
      exact absurd h1 (lt_irrefl x)
  · have : m = (⟨k + 1, hk⟩ : Fin (focusTargets items).length) := Fin.ext heq
    rw [this] at hm
    omega
  · have := focusTargets_get_lt items ⟨k + 1, hk⟩ m (by exact hgt)
    rw [hm] at this
    omega

/-- There is no focus target strictly beyond the last entry. -/
theorem no_target_after_last (items : List MenuItem)
    (hpos : 0 < (focusTargets items).length) (x : Nat)
    (h1 : (focusTargets items).get
        ⟨(focusTargets items).length - 1, by omega⟩ < x) :
    isFocusTarget items x = false := by
  by_contra hx
  rw [Bool.not_eq_false] at hx
  obtain ⟨m, hm⟩ := List.mem_iff_get.mp ((mem_focusTargets items x).mpr hx)
  rcases Nat.lt_or_ge m.1 ((focusTargets items).length - 1) with hlt | hge
  · have := focusTargets_get_lt items m
      ⟨(focusTargets items).length - 1, by omega⟩ hlt
    rw [hm] at this
    omega
  · have hm' : m.1 = (focusTargets items).length - 1 := by
      have := m.2
      omega
    have heqm : m = (⟨(focusTargets items).length - 1, by omega⟩ :
        Fin (focusTargets items).length) := Fin.ext hm'
    rw [heqm] at hm
    rw [hm] at h1
    exact absurd h1 (lt_irrefl x)

/-- The scan started at `a` finds `b`, the first focus target at or after
`a`, given enough fuel (no wrap happens on the way). -/
theorem nextFocusAux_run (items : List MenuItem) :
    ∀ (fuel a b : Nat), a ≤ b → b < items.length →
      (∀ x, a ≤ x → x < b → isFocusTarget items x = false) →
      isFocusTarget items b = true → b - a < fuel →
      nextFocusAux items fuel a = some b := by
  intro fuel
  induction fuel with
  | zero => intro a b _ _ _ _ hfuel; omega
  | succ f ih =>
    intro a b hab hblen hno hb hfuel
    rw [nextFocusAux]
    cases ha : isFocusTarget items a with
    | true =>
      have : a = b := by
        by_contra hne
        have : a < b := by omega
        rw [hno a (le_refl a) this] at ha
        exact Bool.false_ne_true ha
      rw [this]
      simp
    | false =>
      have haneb : a ≠ b := fun h => by rw [h, hb] at ha; simp at ha
      have halt : a < b := by omega
      have hmod : (a + 1) % items.length = a + 1 := Nat.mod_eq_of_lt (by omega)
      rw [if_neg (by simp [ha]), hmod]
      exact ih (a + 1) b (by omega) hblen
        (fun x hx1 hx2 => hno x (by omega) hx2) hb (by omega)

/-- If there is no focus target from `a` to the end of the list, the scan
wraps to index 0 with the corresponding amount of fuel spent. -/
theorem nextFocusAux_wrapAround (items : List MenuItem) :
    ∀ (fuel a : Nat), a < items.length →
      (∀ x, a ≤ x → x < items.length → isFocusTarget items x = false) →
      items.length - a < fuel →
      nextFocusAux items fuel a =
        nextFocusAux items (fuel - (items.length - a)) 0 := by
  intro fuel
  induction fuel with
  | zero => intro a halen _ hfuel; omega
  | succ f ih =>
    intro a halen hno hfuel
    have ha : isFocusTarget items a = false := hno a (le_refl a) halen
    rw [nextFocusAux, if_neg (by simp [ha])]
    rcases Nat.lt_or_ge (a + 1) items.length with hlt | hge
    · have hmod : (a + 1) % items.length = a + 1 := Nat.mod_eq_of_lt hlt
      rw [hmod, ih (a + 1) hlt (fun x hx1 hx2 => hno x (by omega) hx2) (by omega)]
      congr 1
      omega
    · have haeq : a + 1 = items.length := by omega
      have hmod : (a + 1) % items.length = 0 := by
        rw [haeq, Nat.mod_self]
      rw [hmod]
      congr 1
      omega

/-- The scan only ever returns focus targets. -/
theorem nextFocusAux_target (items : List MenuItem) :
    ∀ (fuel j x : Nat), nextFocusAux items fuel j = some x →
      isFocusTarget items x = true := by
  intro fuel
  induction fuel with
  | zero => intro j x h; exact absurd h (by rw [nextFocusAux]; simp)
  | succ f ih =>
    intro j x h
    rw [nextFocusAux] at h
    cases hj : isFocusTarget items j with
    | true =>
      rw [if_pos hj] at h
      cases h
      exact hj
    | false =>
      rw [if_neg (by simp [hj])] at h
      exact ih _ x h

/-- `nextFocus` from the `k`-th focus target lands on the `(k+1)`-th. -/
theorem nextFocus_get_succ (items : List MenuItem) (k : Nat)
    (hk : k + 1 < (focusTargets items).length) :
    nextFocus items ((focusTargets items).get ⟨k, by omega⟩) =
      some ((focusTargets items).get ⟨k + 1, hk⟩) := by
  set a := (focusTargets items).get ⟨k, by omega⟩ with hadef
  set b := (focusTargets items).get ⟨k + 1, hk⟩ with hbdef
  have hab : a < b := focusTargets_get_lt items ⟨k, by omega⟩ ⟨k + 1, hk⟩
    (by simp)
  have hbt : isFocusTarget items b = true := focusTargets_get_target items ⟨k + 1, hk⟩
  have hblen : b < items.length := isFocusTarget_lt items b hbt
  have hmod : (a + 1) % items.length = a + 1 := Nat.mod_eq_of_lt (by omega)
  rw [nextFocus, hmod]
  exact nextFocusAux_run items items.length (a + 1) b (by omega) hblen
    (fun x hx1 hx2 => no_target_between items k hk x (by omega) hx2)
    hbt (by omega)

/-- `nextFocus` from the last focus target wraps to index 0 when index 0 is
itself a focus target. -/
theorem nextFocus_get_last (items : List MenuItem)
    (h0 : isFocusTarget items 0 = true) :
    nextFocus items ((focusTargets items).get
        ⟨(focusTargets items).length - 1,
          by have := focusTargets_length_pos items h0; omega⟩) = some 0 := by
  have hpos := focusTargets_length_pos items h0
  set a := (focusTargets items).get ⟨(focusTargets items).length - 1, by omega⟩
    with hadef
  have hat : isFocusTarget items a = true := focusTargets_get_target items _
  have halen : a < items.length := isFocusTarget_lt items a hat
  have hlenpos : 0 < items.length := by omega
  rw [nextFocus]
  rcases Nat.lt_or_ge (a + 1) items.length with hlt | hge
  · have hmod : (a + 1) % items.length = a + 1 := Nat.mod_eq_of_lt hlt
    rw [hmod]
    have hwrap := nextFocusAux_wrapAround items items.length (a + 1) hlt
      (fun x hx1 hx2 => no_target_after_last items hpos x (by omega)) (by omega)
    rw [hwrap]
    have hfpos : 0 < items.length - (items.length - (a + 1)) := by omega
    cases hf : items.length - (items.length - (a + 1)) with
    | zero => omega
    | succ f =>
      rw [nextFocusAux, if_pos h0]
  · have haeq : a + 1 = items.length := by omega
    have hmod : (a + 1) % items.length = 0 := by rw [haeq, Nat.mod_self]
    rw [hmod]
    cases hf : items.length with
    | zero => omega
    | succ f =>
      rw [nextFocusAux, if_pos h0]

/-- Starting at focus index 0 (itself a target), `k` "next" steps land on
the `k`-th focus target. -/
theorem stepNext_iterate_get (items : List MenuItem)
    (h0 : isFocusTarget items 0 = true) :
    ∀ (k : Nat) (hk : k < (focusTargets items).length),
      (stepNext items)^[k] 0 = (focusTargets items).get ⟨k, hk⟩ := by
  intro k
  induction k with
  | zero =>
    intro hk
    rw [Function.iterate_zero_apply]
    exact (focusTargets_head items h0 hk).symm
  | succ m ih =>
    intro hk
    rw [Function.iterate_succ_apply', ih (by omega)]
    rw [stepNext, nextFocus_get_succ items m hk]
    rfl

/-- C6. With `N` the number of visible non-separator items and index 0 a
valid focus target, applying "next" navigation `N` times from focus index 0
returns to index 0 (navigation wraps at the ends); moreover "next" only ever
lands on valid focus targets — non-separator, non-hidden items. -/
theorem menu_next_wraps (items : List MenuItem)
    (h0 : isFocusTarget items 0 = true) :
    (stepNext items)^[countFocusTargets items] 0 = 0 ∧
      ∀ i j, nextFocus items i = some j → isFocusTarget items j = true := by
  constructor
  · have hpos := focusTargets_length_pos items h0
    obtain ⟨M, hM⟩ : ∃ M, countFocusTargets items = M + 1 :=
      ⟨(focusTargets items).length - 1, by rw [countFocusTargets]; omega⟩
    rw [hM, Function.iterate_succ_apply']
    have hMlt : M < (focusTargets items).length := by
      rw [countFocusTargets] at hM
      omega
    rw [stepNext_iterate_get items h0 M hMlt]
    have hMeq : M = (focusTargets items).length - 1 := by
      rw [countFocusTargets] at hM
      omega
    rw [stepNext]
    have hlast := nextFocus_get_last items h0
    have : (⟨M, hMlt⟩ : Fin (focusTargets items).length) =
        ⟨(focusTargets items).length - 1, by omega⟩ := Fin.ext hMeq
    rw [this, hlast]
    rfl
  · intro i j h
    exact nextFocusAux_target items items.length _ j h

/-- C6 witness: a menu `[button, separator, hidden button, button]` has two
focus targets; two "next" steps from 0 return to 0. -/
theorem menu_next_wraps_witness :
    (stepNext
        [MenuItem.button "a" false false none none, MenuItem.separator "s",
          MenuItem.button "h" false true none none,
          MenuItem.button "b" false false none none])^[countFocusTargets
        [MenuItem.button "a" false false none none, MenuItem.separator "s",
          MenuItem.button "h" false true none none,
          MenuItem.button "b" false false none none]] 0 = 0 ∧
      ∀ i j, nextFocus
          [MenuItem.button "a" false false none none, MenuItem.separator "s",
            MenuItem.button "h" false true none none,
            MenuItem.button "b" false false none none] i = some j →
        isFocusTarget
            [MenuItem.button "a" false false none none, MenuItem.separator "s",
              MenuItem.button "h" false true none none,
              MenuItem.button "b" false false none none] j = true :=
  menu_next_wraps
    [MenuItem.button "a" false false none none, MenuItem.separator "s",
      MenuItem.button "h" false true none none,
      MenuItem.button "b" false false none none] rfl

/-- C5 counterexample. In the spec's own navigation contract ("moves focus
to next/previous non-separator, non-hidden item") a visible disabled button
IS a valid focus target: from index 0 of `[enabled button, disabled button]`
one "next" step lands on the disabled item at index 1 — so disabled items
are not unreachable by keyboard navigation. -/
theorem nextFocus_reaches_disabled :
    nextFocus
        [MenuItem.button "a" false false none none,
          MenuItem.button "b" true false none none] 0 = some 1 ∧
      ([MenuItem.button "a" false false none none,
          MenuItem.button "b" true false none none])[1]? =
        some (MenuItem.button "b" true false none none) ∧
      (MenuItem.button "b" true false none none).isDisabledItem = true :=
  ⟨rfl, rfl, rfl⟩

/-- C5 (amended). Hidden items are excluded from the render list entirely;
keyboard navigation only ever lands on non-separator, non-hidden items (so
separator and hidden items are never a valid focus target); and a disabled
item is unreachable by pointer — hovering it sets the focus index to none
(`-1`). Keyboard navigation, however, may land on a visible disabled item. -/
theorem menu_unreachability_amended :
    (∀ (items : List MenuItem) (item : MenuItem),
        item ∈ renderList items → item.isHiddenItem = false) ∧
      (∀ (items : List MenuItem) (i j : Nat), nextFocus items i = some j →
        ∃ it, items[j]? = some it ∧ it.isSeparatorItem = false ∧
          it.isHiddenItem = false) ∧
      (∀ (items : List MenuItem) (s : MenuLevelState) (i : Nat)
          (it : MenuItem), items[i]? = some it → it.isDisabledItem = true →
        it.isHiddenItem = false →
        menuStep items s (MenuEvent.mouseEnter i) = { s with focusIndex := -1 }) := by
  refine ⟨?_, ?_, ?_⟩
  · intro items item hmem
    rw [renderList, List.mem_filter] at hmem
    have := hmem.2
    simp only [Bool.not_eq_true'] at this
    exact this
  · intro items i j h
    have htgt : isFocusTarget items j = true :=
      nextFocusAux_target items items.length _ j h
    rw [isFocusTarget] at htgt
    cases hg : items[j]? with
    | none => rw [hg] at htgt; exact absurd htgt (by simp)
    | some it =>
      rw [hg] at htgt
      simp only [Bool.not_eq_true', Bool.or_eq_false_iff] at htgt
      exact ⟨it, rfl, htgt.1, htgt.2⟩
  · intro items s i it hitem hdis hhid
    cases it with
    | separator k => exact absurd hdis (by simp [MenuItem.isDisabledItem])
    | popup k => exact absurd hdis (by simp [MenuItem.isDisabledItem])
    | button k d hid c m =>
      rw [MenuItem.isDisabledItem] at hdis
      rw [MenuItem.isHiddenItem] at hhid
      subst hdis
      subst hhid
      simp [menuStep, hitem]

/-- C5 amended witness: hovering the lone (visible, disabled) button of a
menu from a state focused on it drops the focus to none. -/
theorem menu_unreachability_amended_witness :
    menuStep [MenuItem.button "d" true false none none]
        { focusIndex := 0, isSubmenuOpen := false, pendingTimer := none }
        (MenuEvent.mouseEnter 0) =
      { focusIndex := -1, isSubmenuOpen := false, pendingTimer := none } :=
  menu_unreachability_amended.2.2 [MenuItem.button "d" true false none none]
    { focusIndex := 0, isSubmenuOpen := false, pendingTimer := none } 0
    (MenuItem.button "d" true false none none) rfl rfl rfl

/-! ### Share-extension store (`useShareStore`)

```js
setAppendNote: (note) => {
  MMKV.setItem(StorageKeys.appendNote, JSON.stringify(note));
  set({ appendNote: note });
},
restore: () => {
  let appendNote = MMKV.getString(StorageKeys.appendNote);
  let selectedNotebooks = MMKV.getString(StorageKeys.selectedNotebooks);
  let selectedTags = MMKV.getString(StorageKeys.selectedTag);
  appendNote = JSON.parse(appendNote);
  set({
    appendNote: appendNote ? JSON.parse(appendNote) : null,
    selectedNotebooks: selectedNotebooks ? JSON.parse(selectedNotebooks) : [],
    selectedTag: selectedTags ? JSON.parse(selectedTags) : []
  });
},
```

`JSON.stringify` / `JSON.parse` and `MMKV` are platform builtins (external
collaborators). We model JSON values as a small inductive, `JSON.stringify`
as the standard printer, and `JSON.parse` as a fuelled recursive-descent
parser (restricted to integer numerals and escape-free strings — the claim
does not depend on those cases). The double parse in `restore` feeds the
first parse's RESULT (a value, not a string) back to `JSON.parse`, which
first coerces its argument to a string: a plain object coerces to
`"[object Object]"`. -/

/-- A JSON value (numbers restricted to integers). -/
inductive JValue : Type where
  | jnull : JValue
  | jbool : Bool → JValue
  | jnum : Int → JValue
  | jstr : List Char → JValue
  | jarr : List JValue → JValue
  | jobj : List (List Char × JValue) → JValue

/-- The opening brace character. -/
def lbraceChar : Char := Char.ofNat 123

/-- The closing brace character. -/
def rbraceChar : Char := Char.ofNat 125

mutual
/-- Model of the `JSON.stringify` builtin. -/
def stringifyVal : JValue → List Char
  | JValue.jnull => ['n', 'u', 'l', 'l']
  | JValue.jbool true => ['t', 'r', 'u', 'e']
  | JValue.jbool false => ['f', 'a', 'l', 's', 'e']
  | JValue.jnum n => (toString n).toList
  | JValue.jstr s => '"' :: (s ++ ['"'])
  | JValue.jarr vs => '[' :: (stringifyElems vs ++ [']'])
  | JValue.jobj fs => lbraceChar :: (stringifyFields fs ++ [rbraceChar])

/-- Comma-separated stringified array elements. -/
def stringifyElems : List JValue → List Char
  | [] => []
  | [v] => stringifyVal v
  | v :: vs => stringifyVal v ++ ',' :: stringifyElems vs

/-- Comma-separated stringified object fields. -/
def stringifyFields : List (List Char × JValue) → List Char
  | [] => []
  | [(k, v)] => '"' :: (k ++ '"' :: ':' :: stringifyVal v)
  | (k, v) :: fs =>
    '"' :: (k ++ '"' :: ':' :: stringifyVal v) ++ ',' :: stringifyFields fs
end

/-- JSON insignificant whitespace. -/
def jsonWs (c : Char) : Bool :=
  c = ' ' || c = '\t' || c = '\n' || c = '\r'

/-- Skip insignificant whitespace. -/
def skipWs (cs : List Char) : List Char := cs.dropWhile jsonWs

/-- Parse the body of a string literal after the opening quote (escape-free
model). -/
def parseStringBody : List Char → Option (List Char × List Char)
  | [] => none
  | c :: rest =>
    if c = '"' then some ([], rest)
    else (parseStringBody rest).map (fun p => (c :: p.1, p.2))

/-- Parse a run of decimal digits into a number. -/
def digitsToNat (ds : List Char) : Nat :=
  ds.foldl (fun n c => n * 10 + (c.toNat - '0'.toNat)) 0

/-- Parse a natural-number literal. -/
def parseNatBody (cs : List Char) : Option (Nat × List Char) :=
  let ds := cs.takeWhile Char.isDigit
  if ds.isEmpty then none
  else some (digitsToNat ds, cs.dropWhile Char.isDigit)

/-- Parse an integer literal (optional leading minus). -/
def parseIntBody : List Char → Option (Int × List Char)
  | [] => none
  | c :: rest =>
    if c = '-' then (parseNatBody rest).map (fun p => (-(p.1 : Int), p.2))
    else (parseNatBody (c :: rest)).map (fun p => ((p.1 : Int), p.2))

mutual
/-- Model of the `JSON.parse` builtin's value parser: fuelled
recursive-descent. -/
def parseValue : Nat → List Char → Option (JValue × List Char)
  | 0, _ => none
  | fuel + 1, cs =>
    match skipWs cs with
    | [] => none
    | c :: rest =>
      if c = lbraceChar then
        (parseObjInner fuel rest).map (fun p => (JValue.jobj p.1, p.2))
      else if c = '[' then
        (parseArrInner fuel rest).map (fun p => (JValue.jarr p.1, p.2))
      else if c = '"' then
        (parseStringBody rest).map (fun p => (JValue.jstr p.1, p.2))
      else if c = 'n' then
        if rest.take 3 = ['u', 'l', 'l'] then some (JValue.jnull, rest.drop 3)
        else none
      else if c = 't' then
        if rest.take 3 = ['r', 'u', 'e'] then
          some (JValue.jbool true, rest.drop 3)
        else none
      else if c = 'f' then
        if rest.take 4 = ['a', 'l', 's', 'e'] then
          some (JValue.jbool false, rest.drop 4)
        else none
      else (parseIntBody (c :: rest)).map (fun p => (JValue.jnum p.1, p.2))

/-- After `[`: an empty array or a comma-separated element list. -/
def parseArrInner : Nat → List Char → Option (List JValue × List Char)
  | 0, _ => none
  | fuel + 1, cs =>
    match skipWs cs with
    | [] => none
    | c :: rest =>
      if c = ']' then some ([], rest)
      else parseElems fuel (c :: rest)

/-- One or more comma-separated array elements, consuming the closing `]`. -/
def parseElems : Nat → List Char → Option (List JValue × List Char)
  | 0, _ => none
  | fuel + 1, cs =>
    (parseValue fuel cs).bind (fun p =>
      match skipWs p.2 with
      | ',' :: r => (parseElems fuel r).map (fun q => (p.1 :: q.1, q.2))
      | ']' :: r => some ([p.1], r)
      | _ => none)

/-- After the opening brace: an empty object or a field list. -/
def parseObjInner : Nat → List Char → Option (List (List Char × JValue) × List Char)
  | 0, _ => none
  | fuel + 1, cs =>
    match skipWs cs with
    | [] => none
    | c :: rest =>
      if c = rbraceChar then some ([], rest)
      else parseFields fuel (c :: rest)

/-- One or more comma-separated `"key": value` fields, consuming the closing
brace. -/
def parseFields : Nat → List Char → Option (List (List Char × JValue) × List Char)
  | 0, _ => none
  | fuel + 1, cs =>
    match skipWs cs with
    | [] => none
    | c :: rest =>
      if c = '"' then
        (parseStringBody rest).bind (fun pk =>
          match skipWs pk.2 with
          | ':' :: r1 =>
            (parseValue fuel r1).bind (fun pv =>
              match skipWs pv.2 with
              | ',' :: r2 =>
                (parseFields fuel r2).map (fun q => ((pk.1, pv.1) :: q.1, q.2))
              | d :: r2 =>
                if d = rbraceChar then some ([(pk.1, pv.1)], r2) else none
              | _ => none)
          | _ => none)
      else none
end

/-- A `SyntaxError` thrown by `JSON.parse`. -/
inductive SyntaxErr : Type where
  | syntaxError : SyntaxErr
deriving DecidableEq

/-- Model of the `JSON.parse` builtin: parse one value, require the rest to
be whitespace, throw a `SyntaxError` otherwise. -/
def jsonParse (cs : List Char) : Except SyntaxErr JValue :=
  match parseValue (cs.length + 2) cs with
  | some p =>
    match skipWs p.2 with
    | [] => Except.ok p.1
    | _ => Except.error SyntaxErr.syntaxError
  | none => Except.error SyntaxErr.syntaxError

/-- JavaScript string coercion (`ToString`) of a JSON-like value, as
`JSON.parse` applies to a non-string argument: a plain object becomes
`"[object Object]"`. (The array case — the comma-join of the coerced
elements — is abbreviated to a placeholder: no claim exercises it.) -/
def jsToString : JValue → List Char
  | JValue.jnull => ['n', 'u', 'l', 'l']
  | JValue.jbool true => ['t', 'r', 'u', 'e']
  | JValue.jbool false => ['f', 'a', 'l', 's', 'e']
  | JValue.jnum n => (toString n).toList
  | JValue.jstr s => s
  | JValue.jarr _ => ['a', 'r', 'r', 'a', 'y']
  | JValue.jobj _ =>
    ['[', 'o', 'b', 'j', 'e', 'c', 't', ' ', 'O', 'b', 'j', 'e', 'c', 't', ']']

/-- JavaScript truthiness of a JSON-like value. -/
def jsTruthy : JValue → Bool
  | JValue.jnull => false
  | JValue.jbool b => b
  | JValue.jnum n => decide (n ≠ 0)
  | JValue.jstr s => decide (s ≠ [])
  | JValue.jarr _ => true
  | JValue.jobj _ => true

/-- The MMKV storage keys used by the share store. -/
def appendNoteKey : String := "shareMenuAppendNote"

/-- `StorageKeys.selectedNotebooks`. -/
def selectedNotebooksKey : String := "shareMenuSelectedNotebooks"

/-- `StorageKeys.selectedTag`. -/
def selectedTagKey : String := "shareMenuSelectedTag"

/-- The MMKV key-value store: `getString` yields the stored string or
`undefined`. -/
def ShareStorage : Type := String → Option (List Char)

/-- `MMKV.setItem`. -/
def mmkvSetItem (σ : ShareStorage) (k : String) (v : List Char) : ShareStorage :=
  fun k' => if k' = k then some v else σ k'

/-- `setAppendNote`: persist `JSON.stringify(note)` under the appendNote key
and set the in-memory `appendNote` to the note itself. -/
def setAppendNote (note : JValue) (σ : ShareStorage) : ShareStorage × JValue :=
  (mmkvSetItem σ appendNoteKey (stringifyVal note), note)

/-- `JSON.parse(MMKV.getString(k))`: a missing key reads as `undefined`,
which `JSON.parse` coerces to the string `"undefined"` (and rejects). -/
def jsOfGetString : Option (List Char) → List Char
  | some s => s
  | none => ['u', 'n', 'd', 'e', 'f', 'i', 'n', 'e', 'd']

/-- The state fields written by `restore`'s `set` call. -/
structure RestoredShareState : Type where
  appendNote : Option JValue
  selectedNotebooks : JValue
  selectedTag : JValue

/-- `restore`, transcribed statement for statement. The raw string is
parsed once (`appendNote = JSON.parse(appendNote)`), and then — because the
variable now holds the parsed VALUE — parsed a second time through string
coercion inside the `set` object literal; a thrown `SyntaxError` aborts the
whole `restore` call before `set` runs. -/
def restore (σ : ShareStorage) : Except SyntaxErr RestoredShareState :=
  (jsonParse (jsOfGetString (σ appendNoteKey))).bind (fun a =>
    (if jsTruthy a then (jsonParse (jsToString a)).map some
     else Except.ok none).bind (fun an =>
      (match σ selectedNotebooksKey with
        | some s => if decide (s ≠ []) then jsonParse s else Except.ok (JValue.jarr [])
        | none => Except.ok (JValue.jarr [])).bind (fun nb =>
        (match σ selectedTagKey with
          | some s => if decide (s ≠ []) then jsonParse s else Except.ok (JValue.jarr [])
          | none => Except.ok (JValue.jarr [])).map (fun tg =>
          { appendNote := an, selectedNotebooks := nb, selectedTag := tg }))))

theorem skipWs_lbrace (t : List Char) : skipWs (lbraceChar :: t) = lbraceChar :: t := rfl

/-- Any successful parse of an input whose first significant character is an
opening brace yields a JSON object. -/
theorem parseValue_lbrace_obj (fuel : Nat) (cs : List Char) (t : List Char)
    (hcs : skipWs cs = lbraceChar :: t) (v : JValue) (r : List Char)
    (h : parseValue fuel cs = some (v, r)) : ∃ gs, v = JValue.jobj gs := by
  cases fuel with
  | zero => exact absurd h (by rw [parseValue]; simp)
  | succ f =>
    have hred : parseValue (f + 1) cs =
        (parseObjInner f t).map (fun p => (JValue.jobj p.1, p.2)) := by
      rw [parseValue, hcs]
      rfl
    rw [hred] at h
    cases hobj : parseObjInner f t with
    | none => rw [hobj] at h; exact absurd h (by simp)
    | some p =>
      rw [hobj] at h
      have h' : (some (JValue.jobj p.1, p.2) : Option (JValue × List Char)) =
          some (v, r) := h
      exact ⟨p.1, ((Prod.ext_iff.mp (Option.some.inj h')).1).symm⟩

theorem stringifyVal_jobj (fs : List (List Char × JValue)) :
    stringifyVal (JValue.jobj fs) = lbraceChar :: (stringifyFields fs ++ [rbraceChar]) := by
  rw [stringifyVal]

/-- The second `JSON.parse`, applied to a plain object coerced to
`"[object Object]"`, throws. -/
theorem jsonParse_objectObject :
    jsonParse (jsToString (JValue.jobj [])) = Except.error SyntaxErr.syntaxError := rfl

/-- C10. `restore` applies `JSON.parse` to the result of `JSON.parse`; for
every (non-string) note object persisted via `setAppendNote` — which stores
`JSON.stringify(note)` — a subsequent `restore` throws a `SyntaxError`
instead of restoring the note: the first parse yields the object back (or
itself fails), and the second parse receives the object coerced to
`"[object Object]"`, which is not valid JSON. -/
theorem restore_after_setAppendNote_throws (fs : List (List Char × JValue))
    (σ : ShareStorage) :
    restore (setAppendNote (JValue.jobj fs) σ).1 =
      Except.error SyntaxErr.syntaxError := by
  have hget : (setAppendNote (JValue.jobj fs) σ).1 appendNoteKey =
      some (stringifyVal (JValue.jobj fs)) := rfl
  rw [restore, hget, jsOfGetString]
  cases hp : jsonParse (stringifyVal (JValue.jobj fs)) with
  | error e =>
    cases e
    rfl
  | ok v =>
    have hobj : ∃ gs, v = JValue.jobj gs := by
      cases hpv : parseValue ((stringifyVal (JValue.jobj fs)).length + 2)
          (stringifyVal (JValue.jobj fs)) with
      | none =>
        rw [jsonParse, hpv] at hp
        exact absurd hp (by simp)
      | some p =>
        have hpobj : ∃ gs, p.1 = JValue.jobj gs :=
          parseValue_lbrace_obj ((stringifyVal (JValue.jobj fs)).length + 2)
            (stringifyVal (JValue.jobj fs)) (stringifyFields fs ++ [rbraceChar])
            (by rw [stringifyVal_jobj]; exact skipWs_lbrace _) p.1 p.2
            (by rw [hpv])
        rw [jsonParse, hpv] at hp
        obtain ⟨gs, hgs⟩ := hpobj
        have h2 : (match skipWs p.2 with
            | [] => (Except.ok p.1 : Except SyntaxErr JValue)
            | _ => Except.error SyntaxErr.syntaxError) = Except.ok v := hp
        cases hws : skipWs p.2 with
        | nil =>
          rw [hws] at h2
          have h3 : (Except.ok p.1 : Except SyntaxErr JValue) = Except.ok v := h2
          exact ⟨gs, by rw [← Except.ok.inj h3, hgs]⟩
        | cons d ds =>
          rw [hws] at h2
          have h3 : (Except.error SyntaxErr.syntaxError :
              Except SyntaxErr JValue) = Except.ok v := h2
          exact absurd h3 (by simp)
    obtain ⟨gs, rfl⟩ := hobj
    rfl

/-- C10 witness: a concrete one-field note object round-trips into a thrown
`SyntaxError` on restore. -/
theorem restore_after_setAppendNote_throws_witness :
    restore (setAppendNote
        (JValue.jobj [(['t'], JValue.jstr ['x'])]) (fun _ => none)).1 =
      Except.error SyntaxErr.syntaxError :=
  restore_after_setAppendNote_throws [(['t'], JValue.jstr ['x'])] (fun _ => none)

end Notesnook
